import Mathlib

set_option maxHeartbeats 1000000

/-!
Verification of the crawl pipeline of src/index.js (theorgscrapper).

The worker pool, work queue, checkpoint and traversal controller of the
crawler are shallowly embedded below; navigation, DOM queries and the
next-page probe are modelled by explicit oracles and per-iteration world
scripts, since they are external I/O. File writes (CSV append, checkpoint
save) are modelled as infallible, matching the spec's treatment of them as
trivial I/O by an external collaborator. An extraction attempt has three
outcomes, reflecting the throw sites of the try block of processCompany:
it throws before any write (navigation or DOM access), or it appends its
row and mutates the checkpoint and then throws at companyPage.close() -
which sits inside the try AFTER the write, so such an attempt still counts
as failed - or it completes and returns true; the homepage field may be
empty when the selector is absent.
-/

namespace OrgScrape

/-- An entity reference as pushed by addToQueue in src/index.js:
the name and detail url scraped from a listing page plus the sourceurl
of the tab it came from. -/
structure Company where
  name : String
  url : String
  sourceurl : String
  deriving DecidableEq, Repr

/-- The checkpoint object (the global `progress` of src/index.js, lines 12-17).
The JS Set of processed names is modelled as a duplicate-free-by-construction
list with membership insert (jsSetAdd). -/
structure Progress where
  processedCompanies : List String
  lastTabUrl : Option String
  lastPageUrl : Option String
  totalProcessed : Nat
  deriving DecidableEq, Repr

/-- The mutable crawl state: the checkpoint, the work queue (companyQueue)
and the rows appended so far to output.csv, each row being
(sourceurl, company name, homepage url). -/
structure CrawlState where
  progress : Progress
  companyQueue : List Company
  outputRows : List (String × String × String)
  deriving DecidableEq, Repr

/-- maxRetries of processCompany (src/index.js line 66). -/
def maxRetries : Nat := 3

/-- The fixed delay in milliseconds between retry attempts (line 93). -/
def retryDelayMs : Nat := 30000

/-- CONCURRENCY_LIMIT (src/index.js line 9): chunk size of the worker pool. -/
def CONCURRENCY_LIMIT : Nat := 5

/-- JS Set.add on the processed-names set: append the name if absent. -/
def jsSetAdd (n : String) (l : List String) : List String :=
  if n ∈ l then l else l ++ [n]

/-- The success path of one extraction attempt (src/index.js lines 78-88):
append the CSV row, add the name to the processed set, bump the counter
(saveProgress itself is durable I/O with no further in-memory effect). -/
def writeSuccess (c : Company) (homepageUrl : String) (s : CrawlState) : CrawlState :=
  { s with
    outputRows := s.outputRows ++ [(c.sourceurl, c.name, homepageUrl)]
    progress := { s.progress with
      processedCompanies := jsSetAdd c.name s.progress.processedCompanies
      totalProcessed := s.progress.totalProcessed + 1 } }

/-- Zero or more writeSuccess applications for the same company, one per
attempt of processCompany that reached the CSV write (a run can write more
than once when an attempt throws at close() and a later attempt writes
again). -/
def foldWrites (c : Company) (hs : List String) (s : CrawlState) : CrawlState :=
  hs.foldl (fun st h => writeSuccess c h st) s

/-- addToQueue (src/index.js lines 50-57): filter out companies whose name is
already in the processed set, tag the rest with the sourceurl, append. The
input pairs are (name, url) as produced by the listing-page DOM query. -/
def addToQueue (companies : List (String × String)) (sourceurl : String)
    (s : CrawlState) : CrawlState :=
  let newCompanies := companies.filter fun c =>
    decide (c.1 ∉ s.progress.processedCompanies)
  { s with companyQueue :=
      s.companyQueue ++ newCompanies.map fun c => ⟨c.1, c.2, sourceurl⟩ }

/-- Outcome of one extraction attempt (one iteration of the try block at
src/index.js lines 69-88).  The try block has throw sites both before and
after the CSV write: goto (line 71) and the DOM query (line 75) throw
before anything is written, while companyPage.close() (line 87) sits after
the CSV append (line 79) and the checkpoint mutation (lines 84-86).  So an
attempt either
- navErr: throws before any write (navigation or DOM access), or
- closeErr h: appends the row with homepage url h and mutates the
  checkpoint, then close() throws, so the attempt is still caught and
  counted as failed, or
- ok h: appends the row with homepage url h, mutates the checkpoint and
  returns true.
The file writes themselves (appendFileSync, saveProgress) are modelled
infallible, per the spec's treatment of the sink and checkpoint store as
trivial I/O; h is empty when the selector was absent
(waitForSelectorSafe never throws). -/
inductive AttemptRes where
  | navErr
  | closeErr (h : String)
  | ok (h : String)
  deriving DecidableEq, Repr

/-- Whether an attempt outcome is a full success (the return-true path). -/
def AttemptRes.isOk : AttemptRes → Bool
  | AttemptRes.ok _ => true
  | _ => false

/-- Whether an attempt outcome is the post-write failure: close() throwing
after the CSV append and checkpoint mutation. -/
def AttemptRes.isCloseErr : AttemptRes → Bool
  | AttemptRes.closeErr _ => true
  | _ => false

/-- The outcome of each extraction attempt, by attempt index. -/
abbrev Extractor := Nat → AttemptRes

/-- The retry loop of processCompany (src/index.js lines 68-96), recursing on
the number of attempts still allowed.  Returns the resulting state, whether
some attempt succeeded (the JS return value true, vs falling out of the loop
to return false), the number of attempts made, and the total delay in ms
spent waiting between attempts (a failed attempt waits retryDelayMs only if
another attempt remains, lines 92-94).  A closeErr attempt applies its
writes before being caught: its row and checkpoint mutation survive into
the retry, and the line-61 gate is never re-checked inside the loop. -/
def attemptLoop (extract : Extractor) (c : Company) (s : CrawlState) :
    Nat → Nat → CrawlState × Bool × Nat × Nat
  | 0, _ => (s, false, 0, 0)
  | remaining + 1, idx =>
    match extract idx with
    | AttemptRes.ok h => (writeSuccess c h s, true, 1, 0)
    | AttemptRes.closeErr h =>
      let r := attemptLoop extract c (writeSuccess c h s) remaining (idx + 1)
      (r.1, r.2.1, r.2.2.1 + 1, r.2.2.2 + (if remaining > 0 then retryDelayMs else 0))
    | AttemptRes.navErr =>
      let r := attemptLoop extract c s remaining (idx + 1)
      (r.1, r.2.1, r.2.2.1 + 1, r.2.2.2 + (if remaining > 0 then retryDelayMs else 0))

/-- The JS return value of processCompany: undefined (early return on the
processed-set gate, line 62), true (success, line 88), false (retries
exhausted, line 97). -/
inductive PCResult where
  | skipped
  | success
  | failed
  deriving DecidableEq, Repr

/-- processCompany with the processed-set gate taken from an explicit set.
In a chunk run by Promise.all, every member's gate check (line 61) executes
synchronously before any member reaches its first await, so all gate checks
in a chunk observe the processed set as of chunk start; the gate is therefore
a parameter distinct from the threaded state. -/
def processCompanyWith (gate : List String) (extract : Extractor) (c : Company)
    (s : CrawlState) : CrawlState × PCResult × Nat × Nat :=
  if c.name ∈ gate then (s, PCResult.skipped, 0, 0)
  else
    let r := attemptLoop extract c s maxRetries 0
    (r.1, if r.2.1 then PCResult.success else PCResult.failed, r.2.2.1, r.2.2.2)

/-- processCompany (src/index.js lines 60-98) run standalone: the gate is the
processed set of the state it is given. -/
def processCompany (extract : Extractor) (c : Company) (s : CrawlState) :
    CrawlState × PCResult × Nat × Nat :=
  processCompanyWith s.progress.processedCompanies extract c s

/-- JS falsiness of a processCompany result, as tested by the
chunk.filter((_, index) => !results[index]) at line 107: undefined and false
are falsy, so both skipped and failed entries pass the filter. -/
def jsFalsy : PCResult → Bool
  | PCResult.success => false
  | _ => true

/-- One chunk run under Promise.all, with the gate fixed at chunk start and
the per-member effects applied in member order (the effects commute up to
row interleaving: set insertion, counter increments and row appends of
distinct members are order-independent, and the gate is never re-read after
chunk start). Returns the final state and each member's
(result, attempts, delayMs). -/
def processChunkAux (extract : Company → Extractor) (gate : List String) :
    List Company → CrawlState → CrawlState × List (PCResult × Nat × Nat)
  | [], s => (s, [])
  | c :: rest, s =>
    let r := processCompanyWith gate (extract c) c s
    let rs := processChunkAux extract gate rest r.1
    (rs.1, (r.2.1, r.2.2.1, r.2.2.2) :: rs.2)

/-- A chunk of the worker pool: gate fixed at the processed set of the state
at chunk start. -/
def processChunk (extract : Company → Extractor) (chunk : List Company)
    (s : CrawlState) : CrawlState × List (PCResult × Nat × Nat) :=
  processChunkAux extract s.progress.processedCompanies chunk s

/-- One iteration of the drain loop of processCompaniesInChunks
(src/index.js lines 102-115): splice off a chunk of at most
CONCURRENCY_LIMIT entries, run it, and unshift the falsy-result members
back onto the front of the queue in their chunk order. -/
def drainStep (extract : Company → Extractor) (s : CrawlState) : CrawlState :=
  let chunk := s.companyQueue.take CONCURRENCY_LIMIT
  let rest := s.companyQueue.drop CONCURRENCY_LIMIT
  let res := processChunk extract chunk { s with companyQueue := rest }
  let failed := ((chunk.zip res.2).filter fun p => jsFalsy p.2.1).map Prod.fst
  { res.1 with companyQueue := failed ++ res.1.companyQueue }

/-- The while loop of processCompaniesInChunks with explicit fuel: none
models running out of fuel while the queue is still nonempty (in particular
a nonterminating drain returns none at every fuel). -/
def drainFuel (extract : Company → Extractor) : Nat → CrawlState → Option CrawlState
  | 0, s => if s.companyQueue = [] then some s else none
  | f + 1, s =>
    if s.companyQueue = [] then some s
    else drainFuel extract f (drainStep extract s)

/-- parseInt of a captured digit string: plain decimal value of the digits. -/
def digitsToNat (l : List Char) : Nat :=
  l.foldl (fun acc c => acc * 10 + (c.toNat - 48)) 0

/-- The regex match of lines 193-197: a url matches dash-digits-at-end iff
its character list ends in a nonempty run of ASCII digits preceded by a
dash; on a match, return the part before the dash and the parsed value of
the digit run. -/
def splitTrailing (url : String) : Option (String × Nat) :=
  let rev := url.data.reverse
  let ds := rev.takeWhile Char.isDigit
  let rest := rev.drop ds.length
  if ds = [] then none
  else if rest.head? = some '-' then
    some (String.mk (rest.drop 1).reverse, digitsToNat ds.reverse)
  else none

/-- Line 194: the current page index is the parsed trailing suffix, or 1
when the url has no dash-digits suffix. -/
def currentPageOf (url : String) : Nat :=
  match splitTrailing url with
  | some p => p.2
  | none => 1

/-- Line 197: String.prototype.replace with the same regex — on a match the
dash-digits suffix is replaced by the incremented index; when the regex does
not match, replace returns the string unchanged. -/
def nextPageOf (url : String) : String :=
  match splitTrailing url with
  | some p => p.1 ++ "-" ++ toString (p.2 + 1)
  | none => url

/-- Outcome of the next-page probe at lines 200-209: the goto resolved with
a non-404 response (found), resolved with status 404 (notFound), or threw
(navErr). -/
inductive ProbeRes where
  | found
  | notFound
  | navErr
  deriving DecidableEq, Repr

/-- The world's response to one iteration of the page loop: either the
current listing page fails to load (the outer goto or DOM query at lines
172-180 throws), or it loads with a list of (name, url) company links and
the subsequent next-page probe resolves as given. -/
inductive PageStep where
  | visitErr
  | visitOk (companies : List (String × String)) (probe : ProbeRes)
  deriving DecidableEq, Repr

/-- One iteration of the while (nextPageUrl) loop (src/index.js lines
170-215): returns none when the inner drain runs out of fuel, otherwise
the new state and either some url (the loop continues there: the same url
after a visit error, the probed url after a successful probe) or none
(break: the probe 404'd or threw). -/
def pageIter (extract : Company → Extractor) (fuel : Nat)
    (tabUrl sourceurl : String) (s : CrawlState) (url : String)
    (step : PageStep) : Option (CrawlState × Option String) :=
  match step with
  | PageStep.visitErr => some (s, some url)
  | PageStep.visitOk companies probe =>
    let s1 := addToQueue companies sourceurl s
    match drainFuel extract fuel s1 with
    | none => none
    | some s2 =>
      let s3 := { s2 with progress :=
        { s2.progress with lastPageUrl := some url, lastTabUrl := some tabUrl } }
      match probe with
      | ProbeRes.found => some (s3, some (nextPageOf url))
      | ProbeRes.notFound => some (s3, none)
      | ProbeRes.navErr => some (s3, none)

/-- The page loop driven by a script of world responses, one per iteration;
none when the script runs out while the loop is still going (or a drain ran
out of fuel), some of the state at the break otherwise. -/
def pageLoop (extract : Company → Extractor) (tabUrl sourceurl : String)
    (fuel : Nat) : List PageStep → CrawlState → String → Option CrawlState
  | [], _, _ => none
  | step :: rest, s, url =>
    match pageIter extract fuel tabUrl sourceurl s url step with
    | none => none
    | some (s2, none) => some s2
    | some (s2, some url2) => pageLoop extract tabUrl sourceurl fuel rest s2 url2

/-- One iteration of the tab loop (src/index.js lines 162-216): compute the
starting listing url (line 164: the saved lastPageUrl if any, else the
tab's own url), clear lastPageUrl in the checkpoint (line 167), run the
page loop.  Also returns the starting url that was used. -/
def runTab (extract : Company → Extractor) (fuel : Nat) (s : CrawlState)
    (tabUrl : String) (steps : List PageStep) : Option (CrawlState × String) :=
  let startUrl := s.progress.lastPageUrl.getD tabUrl
  let s1 := { s with progress := { s.progress with lastPageUrl := none } }
  (pageLoop extract tabUrl tabUrl fuel steps s1 startUrl).map fun s2 => (s2, startUrl)

/-- A tab together with the world script for its page loop. -/
structure TabScript where
  url : String
  steps : List PageStep
  deriving DecidableEq, Repr

/-- The tab loop over a list of tabs, collecting for each tab the starting
listing url its page loop was given. -/
def runTabs (extract : Company → Extractor) (fuel : Nat) :
    List TabScript → CrawlState → Option (CrawlState × List String)
  | [], s => some (s, [])
  | t :: ts, s =>
    match runTab extract fuel s t.url t.steps with
    | none => none
    | some (s2, startUrl) =>
      match runTabs extract fuel ts s2 with
      | none => none
      | some (s3, starts) => some (s3, startUrl :: starts)

/-- The startup sequence at src/index.js lines 139-145: if the loaded queue
is nonempty, run processCompaniesInChunks to completion, then navigate to
BASE_URL.  The value is the crawl state at the moment of the BASE_URL
navigation (none if the drain does not finish in the given fuel). -/
def stateAtBaseNav (extract : Company → Extractor) (fuel : Nat)
    (s : CrawlState) : Option CrawlState :=
  if s.companyQueue = [] then some s else drainFuel extract fuel s

/-- Oracle whose every extraction attempt throws before any write. -/
def extractNone : Company → Extractor := fun _ _ => AttemptRes.navErr

/-- Oracle whose every extraction attempt succeeds with homepage "hp". -/
def extractHp : Company → Extractor := fun _ _ => AttemptRes.ok "hp"

/-- Oracle whose every extraction attempt writes its row and checkpoint
mutation and then throws at companyPage.close(). -/
def extractClose : Extractor := fun _ => AttemptRes.closeErr "hp"

/-- Oracle that always throws (before any write) for the company named
"bad" and succeeds for every other company. -/
def extractMix : Company → Extractor := fun c _ =>
  if c.name = "bad" then AttemptRes.navErr else AttemptRes.ok "hp"

/-- Classifier matching extractMix: true exactly on the company named "bad". -/
def badNames : Company → Bool := fun c => c.name == "bad"

/-- Fresh crawl state: nothing processed, empty queue, no rows. -/
def sEmpty : CrawlState := ⟨⟨[], none, none, 0⟩, [], []⟩

/-- A queued entry whose name is already in the processed set. -/
def cAcme : Company := ⟨"acme", "https://x.test/acme", "https://x.test/a"⟩

/-- State that dequeues cAcme while "acme" is already processed. -/
def sSkip : CrawlState := ⟨⟨["acme"], none, none, 1⟩, [cAcme], []⟩

/-- A queued entry whose name is already processed, next to a fresh one. -/
def cBeta : Company := ⟨"beta", "https://x.test/beta", "https://x.test/b"⟩

/-- A fresh queued entry processed in the same chunk as cBeta. -/
def cGood : Company := ⟨"good", "https://x.test/good", "https://x.test/b"⟩

/-- State with the already-processed cBeta and the fresh cGood queued. -/
def sBeta : CrawlState := ⟨⟨["beta"], none, none, 1⟩, [cBeta, cGood], []⟩

/-- Two queue entries carrying the same name "n" (same entity listed twice). -/
def cN1 : Company := ⟨"n", "https://x.test/n1", "https://x.test/t"⟩

/-- Second entry with the same name as cN1 but another detail url. -/
def cN2 : Company := ⟨"n", "https://x.test/n2", "https://x.test/t"⟩

/-- Fresh state whose queue holds two same-name entries in one chunk. -/
def sDup : CrawlState := ⟨⟨[], none, none, 0⟩, [cN1, cN2], []⟩

/-- Fresh state with a single queued entry named "w3". -/
def sW3 : CrawlState := ⟨⟨[], none, none, 0⟩, [⟨"w3", "u", "t"⟩], []⟩

/-- A company used to exercise the all-retries-fail path. -/
def cW5 : Company := ⟨"w5", "u", "t"⟩

/-- A company used to exercise the retry bound. -/
def cW6 : Company := ⟨"w6", "u", "t"⟩

/-- The always-failing company of extractMix. -/
def cBad : Company := ⟨"bad", "u", "t"⟩

/-- The succeeding company of extractMix. -/
def cOk : Company := ⟨"ok", "u", "t"⟩

/-- Fresh state with cBad and cOk queued in one chunk. -/
def sMix : CrawlState := ⟨⟨[], none, none, 0⟩, [cBad, cOk], []⟩

/-- Fresh state with a single queued entry named "w9". -/
def sW9 : CrawlState := ⟨⟨[], none, none, 0⟩, [⟨"w9", "u", "t"⟩], []⟩

/-- Fresh state with a single queued entry named "w10". -/
def sW10 : CrawlState := ⟨⟨[], none, none, 0⟩, [⟨"w10", "u", "t"⟩], []⟩

/-- The state produced by one successful empty-page iteration at url p7 of
tab tab7 starting from sEmpty. -/
def sX7 : CrawlState := ⟨⟨[], some "tab7", some "p7", 0⟩, [], []⟩

/-- Number of output rows whose company-name field equals n. -/
def countRows (n : String) (rows : List (String × String × String)) : Nat :=
  (rows.filter fun r => decide (r.2.1 = n)).length

/-- The dedup invariant maintained by the drain loop: queue names are
duplicate-free, and each name has at most one output row, none unless the
name is already in the processed set. -/
def DedupInv (s : CrawlState) : Prop :=
  (s.companyQueue.map Company.name).Nodup ∧
  ∀ n, countRows n s.outputRows ≤
    if n ∈ s.progress.processedCompanies then 1 else 0

theorem mem_jsSetAdd {n m : String} {l : List String} :
    n ∈ jsSetAdd m l ↔ n ∈ l ∨ n = m := by
  unfold jsSetAdd
  by_cases h : m ∈ l
  · simp only [if_pos h]
    constructor
    · exact Or.inl
    · rintro (hn | rfl)
      · exact hn
      · exact h
  · simp [if_neg h, List.mem_append]

theorem AttemptRes.isOk_iff {a : AttemptRes} :
    a.isOk = true ↔ ∃ h, a = AttemptRes.ok h := by
  cases a <;> simp [AttemptRes.isOk]

theorem foldWrites_cons (c : Company) (h : String) (hs : List String)
    (s : CrawlState) :
    foldWrites c (h :: hs) s = foldWrites c hs (writeSuccess c h s) := rfl

theorem foldWrites_queue (c : Company) (hs : List String) (s : CrawlState) :
    (foldWrites c hs s).companyQueue = s.companyQueue := by
  induction hs generalizing s with
  | nil => rfl
  | cons h t ih =>
    rw [foldWrites_cons, ih]
    rfl

theorem foldWrites_processed_mono {c : Company} {hs : List String}
    {s : CrawlState} {n : String} (hn : n ∈ s.progress.processedCompanies) :
    n ∈ (foldWrites c hs s).progress.processedCompanies := by
  induction hs generalizing s with
  | nil => exact hn
  | cons h t ih =>
    rw [foldWrites_cons]
    exact ih (mem_jsSetAdd.mpr (Or.inl hn))

theorem foldWrites_processed_sub {c : Company} {hs : List String}
    {s : CrawlState} {n : String}
    (hn : n ∈ (foldWrites c hs s).progress.processedCompanies) :
    n ∈ s.progress.processedCompanies ∨ n = c.name := by
  induction hs generalizing s with
  | nil => exact Or.inl hn
  | cons h t ih =>
    rw [foldWrites_cons] at hn
    rcases ih hn with h2 | h2
    · exact mem_jsSetAdd.mp h2
    · exact Or.inr h2

theorem foldWrites_rows_mono {c : Company} {hs : List String} {s : CrawlState}
    {row : String × String × String} (hr : row ∈ s.outputRows) :
    row ∈ (foldWrites c hs s).outputRows := by
  induction hs generalizing s with
  | nil => exact hr
  | cons h t ih =>
    rw [foldWrites_cons]
    exact ih (List.mem_append_left _ hr)

theorem foldWrites_new_processed_row {c : Company} {hs : List String}
    {s : CrawlState} {n : String}
    (hn : n ∈ (foldWrites c hs s).progress.processedCompanies)
    (hns : n ∉ s.progress.processedCompanies) :
    ∃ h, (c.sourceurl, n, h) ∈ (foldWrites c hs s).outputRows := by
  induction hs generalizing s with
  | nil => exact absurd hn hns
  | cons h t ih =>
    rw [foldWrites_cons] at hn ⊢
    by_cases hw : n ∈ (writeSuccess c h s).progress.processedCompanies
    · rcases mem_jsSetAdd.mp hw with h2 | h2
      · exact absurd h2 hns
      · subst h2
        exact ⟨h, foldWrites_rows_mono
          (List.mem_append_right _ (List.mem_singleton_self _))⟩
    · exact ih hn hw

theorem attemptLoop_allFail {e : Extractor} (he : ∀ i, e i = AttemptRes.navErr)
    (c : Company) (s : CrawlState) (r idx : Nat) :
    attemptLoop e c s r idx = (s, false, r, retryDelayMs * (r - 1)) := by
  induction r generalizing idx with
  | zero => rfl
  | succ r ih =>
    simp only [attemptLoop, he, ih]
    refine Prod.ext rfl (Prod.ext rfl (Prod.ext rfl ?_))
    simp only [retryDelayMs]
    rcases Nat.eq_zero_or_pos r with hr | hr
    · subst hr; simp
    · have : r > 0 := hr
      simp only [if_pos this]
      omega

theorem attemptLoop_firstSuccess {e : Extractor} {idx : Nat} {h : String}
    (hi : e idx = AttemptRes.ok h) (c : Company) (s : CrawlState) (r : Nat) :
    attemptLoop e c s (r + 1) idx = (writeSuccess c h s, true, 1, 0) := by
  simp [attemptLoop, hi]

theorem attemptLoop_state_writes (e : Extractor) (c : Company) (s : CrawlState)
    (r idx : Nat) : ∃ hs, (attemptLoop e c s r idx).1 = foldWrites c hs s := by
  induction r generalizing s idx with
  | zero => exact ⟨[], rfl⟩
  | succ r ih =>
    cases he : e idx with
    | navErr =>
      simp only [attemptLoop, he]
      exact ih s (idx + 1)
    | closeErr h =>
      simp only [attemptLoop, he]
      obtain ⟨hs, hh⟩ := ih (writeSuccess c h s) (idx + 1)
      exact ⟨h :: hs, by rw [foldWrites_cons]; exact hh⟩
    | ok h =>
      refine ⟨[h], ?_⟩
      simp [attemptLoop, he]
      rfl

theorem attemptLoop_false_state_pre {e : Extractor} {c : Company}
    (hpre : ∀ i, (e i).isCloseErr = false) :
    ∀ (r idx : Nat) (s : CrawlState),
    (attemptLoop e c s r idx).2.1 = false → (attemptLoop e c s r idx).1 = s := by
  intro r
  induction r with
  | zero => intro idx s _; rfl
  | succ r ih =>
    intro idx s hf
    cases he : e idx with
    | navErr =>
      simp only [attemptLoop, he] at hf ⊢
      exact ih (idx + 1) s hf
    | closeErr h =>
      have h2 := hpre idx
      rw [he] at h2
      simp [AttemptRes.isCloseErr] at h2
    | ok h => simp [attemptLoop, he] at hf

theorem attemptLoop_true_write_pre {e : Extractor} {c : Company}
    (hpre : ∀ i, (e i).isCloseErr = false) :
    ∀ (r idx : Nat) (s : CrawlState),
    (attemptLoop e c s r idx).2.1 = true →
    ∃ h, (attemptLoop e c s r idx).1 = writeSuccess c h s := by
  intro r
  induction r with
  | zero => intro idx s ht; simp [attemptLoop] at ht
  | succ r ih =>
    intro idx s ht
    cases he : e idx with
    | navErr =>
      simp only [attemptLoop, he] at ht ⊢
      exact ih (idx + 1) s ht
    | closeErr h =>
      have h2 := hpre idx
      rw [he] at h2
      simp [AttemptRes.isCloseErr] at h2
    | ok h => exact ⟨h, by simp [attemptLoop, he]⟩

theorem attemptLoop_attempts_le (e : Extractor) (c : Company) :
    ∀ (r idx : Nat) (s : CrawlState), (attemptLoop e c s r idx).2.2.1 ≤ r := by
  intro r
  induction r with
  | zero => intro idx s; simp [attemptLoop]
  | succ r ih =>
    intro idx s
    cases he : e idx with
    | navErr =>
      simp only [attemptLoop, he]
      exact Nat.succ_le_succ (ih (idx + 1) s)
    | closeErr h =>
      simp only [attemptLoop, he]
      exact Nat.succ_le_succ (ih (idx + 1) _)
    | ok h => simp [attemptLoop, he]

theorem attemptLoop_noOk_false {e : Extractor} {c : Company}
    (hno : ∀ i, (e i).isOk = false) :
    ∀ (r idx : Nat) (s : CrawlState), (attemptLoop e c s r idx).2.1 = false := by
  intro r
  induction r with
  | zero => intro idx s; rfl
  | succ r ih =>
    intro idx s
    cases he : e idx with
    | navErr =>
      simp only [attemptLoop, he]
      exact ih (idx + 1) s
    | closeErr h =>
      simp only [attemptLoop, he]
      exact ih (idx + 1) _
    | ok h =>
      have h2 := hno idx
      rw [he] at h2
      simp [AttemptRes.isOk] at h2

theorem pcw_skipped {gate : List String} {e : Extractor} {c : Company}
    {s : CrawlState} (h : c.name ∈ gate) :
    processCompanyWith gate e c s = (s, PCResult.skipped, 0, 0) := by
  simp [processCompanyWith, h]

theorem pcw_state_writes (gate : List String) (e : Extractor) (c : Company)
    (s : CrawlState) :
    ∃ hs, (processCompanyWith gate e c s).1 = foldWrites c hs s := by
  unfold processCompanyWith
  by_cases hg : c.name ∈ gate
  · refine ⟨[], ?_⟩
    simp [hg]
    rfl
  · simp only [if_neg hg]
    exact attemptLoop_state_writes e c s maxRetries 0

theorem pcw_not_success_state_pre {gate : List String} {e : Extractor}
    {c : Company} {s : CrawlState} (hpre : ∀ i, (e i).isCloseErr = false)
    (h : (processCompanyWith gate e c s).2.1 ≠ PCResult.success) :
    (processCompanyWith gate e c s).1 = s := by
  unfold processCompanyWith at *
  by_cases hg : c.name ∈ gate
  · simp [hg]
  · simp only [if_neg hg] at h ⊢
    cases hb : (attemptLoop e c s maxRetries 0).2.1
    · exact attemptLoop_false_state_pre hpre _ _ _ hb
    · simp [hb] at h

theorem pcw_success {gate : List String} {e : Extractor} {c : Company}
    {s : CrawlState} {h : String} (hg : c.name ∉ gate)
    (he : e 0 = AttemptRes.ok h) :
    processCompanyWith gate e c s = (writeSuccess c h s, PCResult.success, 1, 0) := by
  have ha : attemptLoop e c s maxRetries 0 = (writeSuccess c h s, true, 1, 0) :=
    attemptLoop_firstSuccess he c s 2
  simp [processCompanyWith, hg, ha]

theorem pcw_allFail {gate : List String} {e : Extractor} {c : Company}
    {s : CrawlState} (hg : c.name ∉ gate)
    (he : ∀ i, e i = AttemptRes.navErr) :
    processCompanyWith gate e c s =
      (s, PCResult.failed, maxRetries, retryDelayMs * (maxRetries - 1)) := by
  have ha := attemptLoop_allFail he c s maxRetries 0
  simp [processCompanyWith, hg, ha]

theorem pcw_noOk_failed {gate : List String} {e : Extractor} {c : Company}
    {s : CrawlState} (hg : c.name ∉ gate)
    (hno : ∀ i, (e i).isOk = false) :
    (processCompanyWith gate e c s).2.1 = PCResult.failed := by
  unfold processCompanyWith
  simp only [if_neg hg]
  rw [attemptLoop_noOk_false hno]
  simp

theorem pcw_queue (gate : List String) (e : Extractor) (c : Company)
    (s : CrawlState) :
    (processCompanyWith gate e c s).1.companyQueue = s.companyQueue := by
  obtain ⟨hs, h⟩ := pcw_state_writes gate e c s
  rw [h, foldWrites_queue]

theorem pcw_processed_sub {gate : List String} {e : Extractor} {c : Company}
    {s : CrawlState} {n : String}
    (h : n ∈ (processCompanyWith gate e c s).1.progress.processedCompanies) :
    n ∈ s.progress.processedCompanies ∨ n = c.name := by
  obtain ⟨hs, hh⟩ := pcw_state_writes gate e c s
  rw [hh] at h
  exact foldWrites_processed_sub h

theorem pcw_processed_mono {gate : List String} {e : Extractor} {c : Company}
    {s : CrawlState} {n : String} (h : n ∈ s.progress.processedCompanies) :
    n ∈ (processCompanyWith gate e c s).1.progress.processedCompanies := by
  obtain ⟨hs, hh⟩ := pcw_state_writes gate e c s
  rw [hh]
  exact foldWrites_processed_mono h

theorem pcw_state_cases2_pre {gate : List String} {e : Extractor} {c : Company}
    {s : CrawlState} (hpre : ∀ i, (e i).isCloseErr = false) :
    (processCompanyWith gate e c s).1 = s ∨
      (c.name ∉ gate ∧ ∃ h, (processCompanyWith gate e c s).1 = writeSuccess c h s) := by
  unfold processCompanyWith
  by_cases hg : c.name ∈ gate
  · simp [hg]
  · simp only [if_neg hg]
    cases hb : (attemptLoop e c s maxRetries 0).2.1
    · exact Or.inl (attemptLoop_false_state_pre hpre _ _ _ hb)
    · exact Or.inr ⟨hg, attemptLoop_true_write_pre hpre _ _ _ hb⟩

theorem pca_queue (e : Company → Extractor) (g : List String) (l : List Company)
    (s : CrawlState) : (processChunkAux e g l s).1.companyQueue = s.companyQueue := by
  induction l generalizing s with
  | nil => rfl
  | cons c rest ih =>
    simp only [processChunkAux]
    rw [ih]
    exact pcw_queue g (e c) c s

theorem pca_length (e : Company → Extractor) (g : List String) (l : List Company)
    (s : CrawlState) : (processChunkAux e g l s).2.length = l.length := by
  induction l generalizing s with
  | nil => rfl
  | cons c rest ih =>
    simp only [processChunkAux, List.length_cons]
    rw [ih]

theorem pca_processed_mono {e : Company → Extractor} {g : List String}
    {l : List Company} {s : CrawlState} {n : String}
    (h : n ∈ s.progress.processedCompanies) :
    n ∈ (processChunkAux e g l s).1.progress.processedCompanies := by
  induction l generalizing s with
  | nil => exact h
  | cons c rest ih =>
    simp only [processChunkAux]
    exact ih (pcw_processed_mono h)

theorem pca_processed_sub {e : Company → Extractor} {g : List String}
    {l : List Company} {s : CrawlState} {n : String}
    (h : n ∈ (processChunkAux e g l s).1.progress.processedCompanies) :
    n ∈ s.progress.processedCompanies ∨ n ∈ l.map Company.name := by
  induction l generalizing s with
  | nil => exact Or.inl h
  | cons c rest ih =>
    simp only [processChunkAux] at h
    rcases ih h with h2 | h2
    · rcases pcw_processed_sub h2 with h3 | h3
      · exact Or.inl h3
      · exact Or.inr (by simp [h3])
    · exact Or.inr (by simp [h2])

theorem pca_all_success {e : Company → Extractor} {g : List String}
    {l : List Company} {s : CrawlState}
    (hl : ∀ c ∈ l, c.name ∉ g ∧ ((e c) 0).isOk = true) :
    ∀ t ∈ (processChunkAux e g l s).2, t.1 = PCResult.success := by
  induction l generalizing s with
  | nil =>
    intro t ht
    simp [processChunkAux] at ht
  | cons c rest ih =>
    intro t ht
    obtain ⟨hg, hs⟩ := hl c (List.mem_cons_self c rest)
    obtain ⟨h, hh⟩ := AttemptRes.isOk_iff.mp hs
    simp only [processChunkAux, List.mem_cons] at ht
    rcases ht with rfl | ht
    · simp [pcw_success hg hh]
    · exact ih (fun c2 hc2 => hl c2 (List.mem_cons_of_mem _ hc2)) t ht

theorem jsFalsy_failed : jsFalsy PCResult.failed = true := rfl

theorem jsFalsy_skipped : jsFalsy PCResult.skipped = true := rfl

theorem jsFalsy_success : jsFalsy PCResult.success = false := rfl

theorem pca_classified {e : Company → Extractor} {g : List String}
    {bad : Company → Bool} :
    ∀ (l : List Company) (s : CrawlState),
    (∀ c ∈ l, c.name ∉ g ∧ (bad c = true → ∀ i, ((e c) i).isOk = false) ∧
       (bad c = false → ((e c) 0).isOk = true)) →
    ((l.zip (processChunkAux e g l s).2).filter fun p => jsFalsy p.2.1).map Prod.fst
      = l.filter bad := by
  intro l
  induction l with
  | nil => intro s _; rfl
  | cons c rest ih =>
    intro s h
    obtain ⟨hg, hbt, hbf⟩ := h c (List.mem_cons_self c rest)
    have hrest := fun c2 hc2 => h c2 (List.mem_cons_of_mem _ hc2)
    cases hb : bad c with
    | true =>
      have hr : (processCompanyWith g (e c) c s).2.1 = PCResult.failed :=
        pcw_noOk_failed hg (hbt hb)
      simp only [processChunkAux, List.zip_cons_cons, List.filter_cons, hr,
        jsFalsy_failed, if_true, List.map_cons, hb]
      rw [ih _ hrest]
    | false =>
      obtain ⟨hv, hh⟩ := AttemptRes.isOk_iff.mp (hbf hb)
      have hr := @pcw_success g (e c) c s hv hg hh
      simp only [processChunkAux, hr, List.zip_cons_cons, List.filter_cons,
        jsFalsy_success, if_false, List.map_cons, hb, Bool.false_eq_true]
      rw [ih _ hrest]

theorem countRows_append (n src m h : String)
    (rows : List (String × String × String)) :
    countRows n (rows ++ [(src, m, h)]) =
      countRows n rows + if m = n then 1 else 0 := by
  unfold countRows
  rw [List.filter_append, List.length_append]
  by_cases hm : m = n
  · simp [hm]
  · simp [hm]

theorem pca_count {e : Company → Extractor} {g : List String} :
    ∀ (l : List Company) (s : CrawlState),
    (∀ c ∈ l, ∀ i, ((e c) i).isCloseErr = false) →
    (l.map Company.name).Nodup →
    (∀ c ∈ l, c.name ∈ s.progress.processedCompanies → c.name ∈ g) →
    (∀ n, countRows n s.outputRows ≤
       if n ∈ s.progress.processedCompanies then 1 else 0) →
    ∀ n, countRows n (processChunkAux e g l s).1.outputRows ≤
       if n ∈ (processChunkAux e g l s).1.progress.processedCompanies then 1
       else 0 := by
  intro l
  induction l with
  | nil => intro s _ _ _ hcount n; exact hcount n
  | cons c rest ih =>
    intro s hpre hnodup hfresh hcount n
    simp only [List.map_cons, List.nodup_cons] at hnodup
    obtain ⟨hcn, hnd⟩ := hnodup
    simp only [processChunkAux]
    have hprest := fun c2 hc2 => hpre c2 (List.mem_cons_of_mem _ hc2)
    rcases @pcw_state_cases2_pre g (e c) c s
        (hpre c (List.mem_cons_self c rest)) with hs | ⟨hg, h, hs⟩
    · simp only [hs]
      exact ih _ hprest hnd
        (fun c2 hc2 => hfresh c2 (List.mem_cons_of_mem _ hc2)) hcount n
    · simp only [hs]
      have hcns : c.name ∉ s.progress.processedCompanies := fun hmem =>
        hg (hfresh c (List.mem_cons_self c rest) hmem)
      refine ih _ hprest hnd ?_ ?_ n
      · intro c2 hc2 hmem
        rcases mem_jsSetAdd.mp hmem with hmem2 | hmem2
        · exact hfresh c2 (List.mem_cons_of_mem _ hc2) hmem2
        · exact absurd (hmem2 ▸ List.mem_map_of_mem Company.name hc2) hcn
      · intro n'
        show countRows n' (s.outputRows ++ [(c.sourceurl, c.name, h)]) ≤ _
        rw [countRows_append]
        by_cases hn' : n' = c.name
        · rw [hn']
          have h1 := hcount c.name
          rw [if_neg hcns] at h1
          have h0 : countRows c.name s.outputRows = 0 := by omega
          have hmem : c.name ∈ (writeSuccess c h s).progress.processedCompanies :=
            mem_jsSetAdd.mpr (Or.inr rfl)
          rw [h0, if_pos rfl, if_pos hmem]
        · rw [if_neg (fun hh2 => hn' hh2.symm), Nat.add_zero]
          by_cases hmem : n' ∈ (writeSuccess c h s).progress.processedCompanies
          · rw [if_pos hmem]
            rcases mem_jsSetAdd.mp hmem with hmem2 | hmem2
            · have := hcount n'
              rw [if_pos hmem2] at this
              exact this
            · exact absurd hmem2 hn'
          · rw [if_neg hmem]
            have hnm : n' ∉ s.progress.processedCompanies := fun hmem2 =>
              hmem (mem_jsSetAdd.mpr (Or.inl hmem2))
            have := hcount n'
            rw [if_neg hnm] at this
            exact this

theorem filter_zip_map_fst_sublist (l : List Company)
    (r : List (PCResult × Nat × Nat)) :
    List.Sublist (((l.zip r).filter fun p => jsFalsy p.2.1).map Prod.fst) l := by
  induction l generalizing r with
  | nil => simp
  | cons c rest ih =>
    cases r with
    | nil => simp
    | cons t ts =>
      rw [List.zip_cons_cons, List.filter_cons]
      by_cases hp : jsFalsy (c, t).2.1 = true
      · rw [if_pos hp, List.map_cons]
        exact (ih ts).cons₂ c
      · rw [if_neg hp]
        exact (ih ts).cons c

theorem drainStep_queue_allSuccess {e : Company → Extractor} {s : CrawlState}
    (h : ∀ c ∈ s.companyQueue.take CONCURRENCY_LIMIT,
       c.name ∉ s.progress.processedCompanies ∧ ((e c) 0).isOk = true) :
    (drainStep e s).companyQueue = s.companyQueue.drop CONCURRENCY_LIMIT := by
  have hall := @pca_all_success e s.progress.processedCompanies
    (s.companyQueue.take CONCURRENCY_LIMIT)
    { s with companyQueue := s.companyQueue.drop CONCURRENCY_LIMIT } h
  have hfe : ((s.companyQueue.take CONCURRENCY_LIMIT).zip
      (processChunkAux e s.progress.processedCompanies
        (s.companyQueue.take CONCURRENCY_LIMIT)
        { s with companyQueue := s.companyQueue.drop CONCURRENCY_LIMIT }).2).filter
      (fun p => jsFalsy p.2.1) = [] := by
    rw [List.filter_eq_nil_iff]
    intro p hp
    rw [hall p.2 (List.of_mem_zip hp).2, jsFalsy_success]
    simp
  show (((s.companyQueue.take CONCURRENCY_LIMIT).zip
      (processChunkAux e s.progress.processedCompanies
        (s.companyQueue.take CONCURRENCY_LIMIT)
        { s with companyQueue := s.companyQueue.drop CONCURRENCY_LIMIT }).2).filter
      (fun p => jsFalsy p.2.1)).map Prod.fst ++
      (processChunkAux e s.progress.processedCompanies
        (s.companyQueue.take CONCURRENCY_LIMIT)
        { s with companyQueue := s.companyQueue.drop CONCURRENCY_LIMIT }).1.companyQueue
      = s.companyQueue.drop CONCURRENCY_LIMIT
  rw [hfe, pca_queue]
  simp

theorem drainStep_processed_sub {e : Company → Extractor} {s : CrawlState}
    {n : String} (h : n ∈ (drainStep e s).progress.processedCompanies) :
    n ∈ s.progress.processedCompanies ∨
      n ∈ (s.companyQueue.take CONCURRENCY_LIMIT).map Company.name :=
  @pca_processed_sub e s.progress.processedCompanies
    (s.companyQueue.take CONCURRENCY_LIMIT)
    { s with companyQueue := s.companyQueue.drop CONCURRENCY_LIMIT } n h

theorem drainFuel_some_empty {e : Company → Extractor} :
    ∀ (f : Nat) (s s' : CrawlState),
    drainFuel e f s = some s' → s'.companyQueue = [] := by
  intro f
  induction f with
  | zero =>
    intro s s' h
    simp only [drainFuel] at h
    by_cases hq : s.companyQueue = []
    · rw [if_pos hq] at h
      cases h
      exact hq
    · rw [if_neg hq] at h
      cases h
  | succ f ih =>
    intro s s' h
    simp only [drainFuel] at h
    by_cases hq : s.companyQueue = []
    · rw [if_pos hq] at h
      cases h
      exact hq
    · rw [if_neg hq] at h
      exact ih _ _ h

theorem drain_terminates {e : Company → Extractor} :
    ∀ (n : Nat) (s : CrawlState), s.companyQueue.length ≤ n →
    (∀ c ∈ s.companyQueue, ((e c) 0).isOk = true) →
    (s.companyQueue.map Company.name).Nodup →
    (∀ c ∈ s.companyQueue, c.name ∉ s.progress.processedCompanies) →
    ∃ f s', drainFuel e f s = some s' ∧ s'.companyQueue = [] := by
  intro n
  induction n with
  | zero =>
    intro s hlen _ _ _
    have hq : s.companyQueue = [] := List.eq_nil_of_length_eq_zero
      (Nat.le_zero.mp hlen)
    exact ⟨0, s, by simp [drainFuel, hq], hq⟩
  | succ n ih =>
    intro s hlen hsome hnd hfresh
    by_cases hq : s.companyQueue = []
    · exact ⟨0, s, by simp [drainFuel, hq], hq⟩
    · have hba : ∀ c ∈ s.companyQueue.take CONCURRENCY_LIMIT,
          c.name ∉ s.progress.processedCompanies ∧ ((e c) 0).isOk = true := by
        intro c hc
        have hcq := List.mem_of_mem_take hc
        exact ⟨hfresh c hcq, hsome c hcq⟩
      have hq2 : (drainStep e s).companyQueue =
          s.companyQueue.drop CONCURRENCY_LIMIT := drainStep_queue_allSuccess hba
      have hlen2 : (drainStep e s).companyQueue.length ≤ n := by
        rw [hq2, List.length_drop]
        have hpos : 0 < s.companyQueue.length := List.length_pos.mpr hq
        have hcl : (0 : Nat) < CONCURRENCY_LIMIT := by decide
        omega
      have hsome2 : ∀ c ∈ (drainStep e s).companyQueue, ((e c) 0).isOk = true := by
        intro c hc
        rw [hq2] at hc
        exact hsome c (List.mem_of_mem_drop hc)
      have hnd2 : ((drainStep e s).companyQueue.map Company.name).Nodup := by
        rw [hq2, List.map_drop]
        exact hnd.sublist (List.drop_sublist _ _)
      have hfresh2 : ∀ c ∈ (drainStep e s).companyQueue,
          c.name ∉ (drainStep e s).progress.processedCompanies := by
        intro c hc hmem
        rw [hq2] at hc
        rcases drainStep_processed_sub hmem with hm | hm
        · exact hfresh c (List.mem_of_mem_drop hc) hm
        · have h1 : c.name ∈ (s.companyQueue.map Company.name).take
              CONCURRENCY_LIMIT := by
            rw [← List.map_take]
            exact hm
          have h2 : c.name ∈ (s.companyQueue.map Company.name).drop
              CONCURRENCY_LIMIT := by
            rw [← List.map_drop]
            exact List.mem_map_of_mem Company.name hc
          have hnd3 : (List.take CONCURRENCY_LIMIT
                (s.companyQueue.map Company.name) ++
              List.drop CONCURRENCY_LIMIT
                (s.companyQueue.map Company.name)).Nodup := by
            rw [List.take_append_drop]
            exact hnd
          exact List.disjoint_of_nodup_append hnd3 h1 h2
      obtain ⟨f, s', hdf, hempty⟩ := ih (drainStep e s) hlen2 hsome2 hnd2 hfresh2
      refine ⟨f + 1, s', ?_, hempty⟩
      simp only [drainFuel, if_neg hq]
      exact hdf

theorem drainStep_queue_eq (e : Company → Extractor) (s : CrawlState) :
    (drainStep e s).companyQueue =
      (((s.companyQueue.take CONCURRENCY_LIMIT).zip
        (processChunkAux e s.progress.processedCompanies
          (s.companyQueue.take CONCURRENCY_LIMIT)
          { s with companyQueue := s.companyQueue.drop CONCURRENCY_LIMIT }).2).filter
        (fun p => jsFalsy p.2.1)).map Prod.fst ++
      s.companyQueue.drop CONCURRENCY_LIMIT := by
  show _ ++ (processChunkAux e s.progress.processedCompanies
      (s.companyQueue.take CONCURRENCY_LIMIT)
      { s with companyQueue := s.companyQueue.drop CONCURRENCY_LIMIT }).1.companyQueue
      = _
  rw [pca_queue]
  rfl

theorem drainStep_progress_eq (e : Company → Extractor) (s : CrawlState) :
    (drainStep e s).progress =
      (processChunkAux e s.progress.processedCompanies
        (s.companyQueue.take CONCURRENCY_LIMIT)
        { s with companyQueue := s.companyQueue.drop CONCURRENCY_LIMIT }).1.progress :=
  rfl

theorem drainStep_rows_eq (e : Company → Extractor) (s : CrawlState) :
    (drainStep e s).outputRows =
      (processChunkAux e s.progress.processedCompanies
        (s.companyQueue.take CONCURRENCY_LIMIT)
        { s with companyQueue := s.companyQueue.drop CONCURRENCY_LIMIT }).1.outputRows :=
  rfl

theorem drainStep_inv {e : Company → Extractor} {s : CrawlState}
    (hpre : ∀ c i, ((e c) i).isCloseErr = false)
    (h : DedupInv s) : DedupInv (drainStep e s) := by
  obtain ⟨hnd, hcount⟩ := h
  have hsplit : (s.companyQueue.take CONCURRENCY_LIMIT).map Company.name ++
      (s.companyQueue.drop CONCURRENCY_LIMIT).map Company.name =
      s.companyQueue.map Company.name := by
    rw [← List.map_append, List.take_append_drop]
  have htk : ((s.companyQueue.take CONCURRENCY_LIMIT).map Company.name).Nodup := by
    rw [List.map_take]
    exact hnd.sublist (List.take_sublist _ _)
  have hdr : ((s.companyQueue.drop CONCURRENCY_LIMIT).map Company.name).Nodup := by
    rw [List.map_drop]
    exact hnd.sublist (List.drop_sublist _ _)
  have hdisj : ((s.companyQueue.take CONCURRENCY_LIMIT).map Company.name).Disjoint
      ((s.companyQueue.drop CONCURRENCY_LIMIT).map Company.name) :=
    List.disjoint_of_nodup_append (by rw [hsplit]; exact hnd)
  constructor
  · rw [drainStep_queue_eq, List.map_append, List.nodup_append]
    have hsubl := filter_zip_map_fst_sublist
      (s.companyQueue.take CONCURRENCY_LIMIT)
      (processChunkAux e s.progress.processedCompanies
        (s.companyQueue.take CONCURRENCY_LIMIT)
        { s with companyQueue := s.companyQueue.drop CONCURRENCY_LIMIT }).2
    have hsubm := hsubl.map Company.name
    refine ⟨htk.sublist hsubm, hdr, ?_⟩
    intro a ha1 ha2
    exact hdisj (hsubm.subset ha1) ha2
  · intro n
    rw [drainStep_rows_eq, drainStep_progress_eq]
    exact pca_count (s.companyQueue.take CONCURRENCY_LIMIT)
      { s with companyQueue := s.companyQueue.drop CONCURRENCY_LIMIT }
      (fun c _ => hpre c) htk (fun c hc hm => hm) (fun n2 => hcount n2) n

theorem DedupInv.count_le_one {s : CrawlState} (h : DedupInv s) (n : String) :
    countRows n s.outputRows ≤ 1 := by
  have h2 := h.2 n
  by_cases hm : n ∈ s.progress.processedCompanies
  · rw [if_pos hm] at h2
    exact h2
  · rw [if_neg hm] at h2
    omega

theorem drainFuel_count {e : Company → Extractor}
    (hpre : ∀ c i, ((e c) i).isCloseErr = false) :
    ∀ (f : Nat) (s s' : CrawlState), DedupInv s → drainFuel e f s = some s' →
    ∀ n, countRows n s'.outputRows ≤ 1 := by
  intro f
  induction f with
  | zero =>
    intro s s' h hd n
    simp only [drainFuel] at hd
    by_cases hq : s.companyQueue = []
    · rw [if_pos hq] at hd
      cases hd
      exact h.count_le_one n
    · rw [if_neg hq] at hd
      cases hd
  | succ f ih =>
    intro s s' h hd n
    simp only [drainFuel] at hd
    by_cases hq : s.companyQueue = []
    · rw [if_pos hq] at hd
      cases hd
      exact h.count_le_one n
    · rw [if_neg hq] at hd
      exact ih _ _ (drainStep_inv hpre h) hd n

theorem takeWhile_all_append (p : Char → Bool) (l1 l2 : List Char)
    (h : ∀ c ∈ l1, p c = true) : (l1 ++ l2).takeWhile p = l1 ++ l2.takeWhile p := by
  induction l1 with
  | nil => rfl
  | cons c rest ih =>
    rw [List.cons_append, List.takeWhile_cons, if_pos (h c (List.mem_cons_self c rest)),
      ih (fun c2 hc2 => h c2 (List.mem_cons_of_mem _ hc2))]
    rfl

/-- Claim C1: the skip rule.  At the failing input sSkip - the dequeued
entry cAcme carries a name already in the processed set - processCompany
indeed makes no attempt and mutates nothing (the no-op half of the claim
holds), but contrary to the claim the entry IS counted as a failed chunk
member and IS requeued: its undefined return value is falsy under the
filter at line 107, so the drain cycle unshifts it back onto the queue,
leaving the queue unchanged, and the drain loop never finishes (fuel 3
shown returning none). -/
theorem C1_skipped_entry_is_requeued :
    processCompany (extractNone cAcme) cAcme sSkip
      = (sSkip, PCResult.skipped, 0, 0) ∧
    (drainStep extractNone sSkip).companyQueue = [cAcme] ∧
    drainFuel extractNone 3 sSkip = none := by
  decide

/-- Claim C2: resumption scope of lastPageUrl.  In a two-tab run from a
fresh state where the first tab completes one listing page, the recorded
starting urls are both the first tab's url: the second tab's page loop
starts at the first tab's last page url instead of its own url, because
line 164 reads progress.lastPageUrl before line 167 clears it and line 188
re-populates it on every completed page of the previous tab. -/
theorem C2_second_tab_starts_at_previous_tab_page :
    (runTabs extractNone 1
        [⟨"https://t.test/a", [PageStep.visitOk [] ProbeRes.notFound]⟩,
         ⟨"https://t.test/b", [PageStep.visitOk [] ProbeRes.notFound]⟩]
        sEmpty).map Prod.snd
      = some ["https://t.test/a", "https://t.test/a"] ∧
    "https://t.test/a" ≠ "https://t.test/b" := by
  decide

/-- Claim C3, counterexample: two queue entries with the same name "n"
drawn in the same chunk both pass the processed-set gate (the gate is
evaluated for the whole chunk before any member's effects land), so one
drain cycle appends two output rows carrying name "n". -/
theorem C3_two_rows_for_one_name :
    countRows "n" (drainStep extractHp sDup).outputRows = 2 := by
  decide

/-- Claim C3 (amended): at most one output row is ever appended per entity
name over a drain of the work queue, provided that no two queue entries
share a name - so that no two same-name entries can occupy the same
concurrently processed chunk - and that no extraction attempt fails after
its CSV write (every attempt failure is a pre-write navigation or DOM
error: an attempt that throws at page close after writing would append the
same name again on a later attempt); under those provisos the
processed-set gate guarantees the dedup invariant, including across
chunks. -/
theorem C3_dedup_nodup_queue_prewrite (e : Company → Extractor) (f : Nat)
    (s s2 : CrawlState) (hpre : ∀ c i, ((e c) i).isCloseErr = false)
    (hnd : (s.companyQueue.map Company.name).Nodup)
    (hrows : s.outputRows = []) (hd : drainFuel e f s = some s2) :
    ∀ n, countRows n s2.outputRows ≤ 1 := by
  refine drainFuel_count hpre f s s2 ⟨hnd, ?_⟩ hd
  intro n
  rw [hrows]
  simp [countRows]

/-- Concrete instantiation of the amended C3 theorem at the one-entry
queue sW3. -/
theorem C3_dedup_nodup_queue_prewrite_witness :
    countRows "w3" (drainStep extractHp sW3).outputRows ≤ 1 :=
  C3_dedup_nodup_queue_prewrite extractHp 1 sW3 (drainStep extractHp sW3)
    (fun _ _ => rfl) (by decide) (by decide) (by decide) "w3"

/-- Claim C4: queue monotonicity.  The growth half holds on this input
(the set keeps "beta" and gains "good"), but the no-re-enqueue half fails:
the skipped entry cBeta, whose name is already in the processed set, is
treated as a failed chunk member and re-enqueued at the front of the queue
by the drain cycle. -/
theorem C4_processed_name_is_reenqueued :
    "beta" ∈ (drainStep extractHp sBeta).progress.processedCompanies ∧
    "good" ∈ (drainStep extractHp sBeta).progress.processedCompanies ∧
    (drainStep extractHp sBeta).companyQueue = [cBeta] := by
  decide

/-- Claim C5, counterexample: an entity whose every attempt writes its
row and checkpoint mutation and then throws at companyPage.close() (line
87, inside the try AFTER the append at line 79 and the mutations at lines
84-86) exhausts its retries and is reported failed - yet three rows were
appended for it, totalProcessed advanced by 3, and its name entered the
processed set, refuting "no record written, no checkpoint mutation". -/
theorem C5_close_error_writes_then_fails :
    (processCompany extractClose cW5 sEmpty).2.1 = PCResult.failed ∧
    countRows "w5" (processCompany extractClose cW5 sEmpty).1.outputRows = 3 ∧
    (processCompany extractClose cW5 sEmpty).1.progress.totalProcessed = 3 ∧
    "w5" ∈ (processCompany extractClose cW5 sEmpty).1.progress.processedCompanies := by
  decide

/-- Claim C5 (amended): if every attempt failure happens before the CSV
write (a navigation or DOM error - the transient extraction failures of
the spec's error taxonomy), then an entity whose processing ends in
failure leaves the state untouched: no output row, no processed-set
change, no counter change.  An attempt that fails after its write (page
close throwing) instead leaves its row and checkpoint mutation in place.
Unconditionally, a name is added to the processed set only together with
a written record: any name newly present after a processCompany run has
an output row recorded for it. -/
theorem C5_prewrite_failure_writes_nothing (e : Extractor) (c : Company)
    (s : CrawlState) :
    ((∀ i, (e i).isCloseErr = false) →
       (processCompany e c s).2.1 = PCResult.failed →
       (processCompany e c s).1 = s) ∧
    (∀ n, n ∈ (processCompany e c s).1.progress.processedCompanies →
       n ∈ s.progress.processedCompanies ∨
       ∃ hp, (c.sourceurl, n, hp) ∈ (processCompany e c s).1.outputRows) := by
  constructor
  · intro hpre h
    unfold processCompany at h ⊢
    refine pcw_not_success_state_pre hpre ?_
    rw [h]
    intro hc
    cases hc
  · intro n hn
    unfold processCompany at hn ⊢
    obtain ⟨hs, hh⟩ := pcw_state_writes s.progress.processedCompanies e c s
    rw [hh] at hn ⊢
    by_cases hmem : n ∈ s.progress.processedCompanies
    · exact Or.inl hmem
    · exact Or.inr (foldWrites_new_processed_row hn hmem)

/-- Concrete instantiation of the amended C5 theorem: pre-write failures
only (every attempt a navigation error) report failure and leave the
state exactly as it was. -/
theorem C5_prewrite_failure_writes_nothing_witness :
    (processCompany (extractNone cW5) cW5 sEmpty).2.1 = PCResult.failed ∧
    (processCompany (extractNone cW5) cW5 sEmpty).1 = sEmpty :=
  ⟨by decide, (C5_prewrite_failure_writes_nothing (extractNone cW5) cW5
      sEmpty).1 (fun _ => rfl) (by decide)⟩

/-- Claim C6: the retry bound and the requeue discipline.  First,
processCompany never makes more than maxRetries = 3 attempts, whatever
the attempt outcomes.  Second, an entry whose every attempt fails before
its write is attempted exactly 3 times, waiting 30000 ms between
consecutive attempts (two gaps, 60000 ms in total), and is reported
failed with no state change.  Third, the drain cycle reinserts exactly
the chunk members with no successful attempt - whatever their failure
mode - at the front of the remaining queue, in their chunk order, ahead
of the not-yet-drawn entries. -/
theorem C6_retry_bound_and_front_requeue :
    (∀ (e : Extractor) (c : Company) (s : CrawlState),
       (processCompany e c s).2.2.1 ≤ maxRetries) ∧
    (∀ (e : Extractor) (c : Company) (s : CrawlState),
       c.name ∉ s.progress.processedCompanies →
       (∀ i, e i = AttemptRes.navErr) →
       processCompany e c s = (s, PCResult.failed, 3, 60000)) ∧
    (∀ (e : Company → Extractor) (s : CrawlState) (bad : Company → Bool),
       (∀ c ∈ s.companyQueue.take CONCURRENCY_LIMIT,
          c.name ∉ s.progress.processedCompanies ∧
          (bad c = true → ∀ i, ((e c) i).isOk = false) ∧
          (bad c = false → ((e c) 0).isOk = true)) →
       (drainStep e s).companyQueue =
         (s.companyQueue.take CONCURRENCY_LIMIT).filter bad ++
         s.companyQueue.drop CONCURRENCY_LIMIT) := by
  refine ⟨?_, ?_, ?_⟩
  · intro e c s
    unfold processCompany processCompanyWith
    by_cases hg : c.name ∈ s.progress.processedCompanies
    · simp [hg]
    · simp only [if_neg hg]
      exact attemptLoop_attempts_le e c maxRetries 0 s
  · intro e c s hg he
    unfold processCompany
    rw [pcw_allFail hg he]
    norm_num [maxRetries, retryDelayMs]
  · intro e s bad h
    rw [drainStep_queue_eq]
    congr 1
    exact pca_classified _ _ h

/-- Concrete instantiation of C6: the always-failing cW6 is attempted 3
times with 60000 ms of waiting in total, and in the mixed chunk sMix
exactly the failing member cBad is requeued at the front. -/
theorem C6_retry_bound_and_front_requeue_witness :
    processCompany (extractNone cW6) cW6 sEmpty
      = (sEmpty, PCResult.failed, 3, 60000) ∧
    (drainStep extractMix sMix).companyQueue = [cBad] := by
  constructor
  · exact C6_retry_bound_and_front_requeue.2.1 (extractNone cW6) cW6 sEmpty
      (by decide) (fun _ => rfl)
  · have hyp : ∀ c ∈ sMix.companyQueue.take CONCURRENCY_LIMIT,
        c.name ∉ sMix.progress.processedCompanies ∧
        (badNames c = true → ∀ i, ((extractMix c) i).isOk = false) ∧
        (badNames c = false → ((extractMix c) 0).isOk = true) := by
      intro c hc
      have hc2 : c = cBad ∨ c = cOk := by
        have hc3 : c ∈ [cBad, cOk] := hc
        simpa using hc3
      rcases hc2 with rfl | rfl
      · exact ⟨by decide, fun _ _ => rfl, fun hb => absurd hb (by decide)⟩
      · exact ⟨by decide, fun hb => absurd hb (by decide), fun _ => rfl⟩
    rw [C6_retry_bound_and_front_requeue.2.2 extractMix sMix badNames hyp]
    decide

/-- Claim C7, counterexample: in a single page-loop iteration the listing
page loads fine but the next-page probe navigation throws (no 404
response); the code breaks out of pagination (line 208), so the page loop
terminates even though no probe ever reported not-found - refuting that
pagination ends only on a not-found probe. -/
theorem C7_probe_error_ends_pagination :
    (pageLoop extractNone "https://t.test/a" "https://t.test/a" 1
      [PageStep.visitOk [] ProbeRes.navErr] sEmpty "https://t.test/a").isSome
      = true := by
  decide

/-- Claim C7 (amended): an error while loading the current listing page
never ends pagination - the controller retries the same url with no state
change, unbounded at page granularity; but a tab's pagination ends in two
cases, not one: when the next-page probe reports not-found AND when the
probe navigation itself errs; only a successful probe continues, at the
incremented url. -/
theorem C7_page_error_retries_same_page :
    (∀ (e : Company → Extractor) (fuel : Nat) (tab src url : String)
       (s : CrawlState),
       pageIter e fuel tab src s url PageStep.visitErr = some (s, some url)) ∧
    (∀ (e : Company → Extractor) (fuel : Nat) (tab src url : String)
       (s s2 : CrawlState) (cs : List (String × String)) (r : Option String),
       pageIter e fuel tab src s url (PageStep.visitOk cs ProbeRes.notFound)
         = some (s2, r) → r = none) ∧
    (∀ (e : Company → Extractor) (fuel : Nat) (tab src url : String)
       (s s2 : CrawlState) (cs : List (String × String)) (r : Option String),
       pageIter e fuel tab src s url (PageStep.visitOk cs ProbeRes.navErr)
         = some (s2, r) → r = none) ∧
    (∀ (e : Company → Extractor) (fuel : Nat) (tab src url : String)
       (s s2 : CrawlState) (cs : List (String × String)) (r : Option String),
       pageIter e fuel tab src s url (PageStep.visitOk cs ProbeRes.found)
         = some (s2, r) → r = some (nextPageOf url)) := by
  refine ⟨fun e fuel tab src url s => rfl, ?_, ?_, ?_⟩
  all_goals
    intro e fuel tab src url s s2 cs r h
    simp only [pageIter] at h
    cases hd : drainFuel e fuel (addToQueue cs src s) with
    | none => rw [hd] at h; cases h
    | some st => rw [hd] at h; cases h; rfl

/-- Concrete instantiation of the amended C7 theorem: a visit error
retries url p7 unchanged, and an iteration whose probe errs hands back no
follow-up url. -/
theorem C7_page_error_retries_same_page_witness :
    pageIter extractNone 1 "tab7" "tab7" sEmpty "p7" PageStep.visitErr
      = some (sEmpty, some "p7") ∧
    (none : Option String) = none :=
  ⟨C7_page_error_retries_same_page.1 extractNone 1 "tab7" "tab7" "p7" sEmpty,
   C7_page_error_retries_same_page.2.2.1 extractNone 1 "tab7" "tab7" "p7"
     sEmpty sX7 [] none (by decide)⟩

/-- Claim C8, counterexample: for a listing url without a trailing
dash-number suffix (every tab's first page), the replace is a no-op: the
computed next-page url equals the current url - it is not a distinct url
carrying index 2 - while the current page is indeed treated as page 1. -/
theorem C8_no_suffix_next_equals_current :
    nextPageOf "https://theorg.com/companies/a"
      = "https://theorg.com/companies/a" ∧
    currentPageOf "https://theorg.com/companies/a" = 1 := by
  decide

/-- Claim C8 (amended): for a url ending in a dash-digits suffix, the next
page url is the stem with the suffix value incremented by one; for a url
with no such suffix the current page is treated as page 1 but the regex
replace does not match, so the probed next-page url is the same url, not
one carrying index 2. -/
theorem C8_next_page_construction :
    (∀ (stem : String) (ds : List Char), ds ≠ [] →
       (∀ c ∈ ds, c.isDigit = true) →
       splitTrailing (stem ++ "-" ++ String.mk ds)
         = some (stem, digitsToNat ds) ∧
       nextPageOf (stem ++ "-" ++ String.mk ds)
         = stem ++ "-" ++ toString (digitsToNat ds + 1)) ∧
    (∀ url, splitTrailing url = none →
       currentPageOf url = 1 ∧ nextPageOf url = url) := by
  constructor
  · intro stem ds hne hdig
    have hdata : (stem ++ "-" ++ String.mk ds).data = stem.data ++ '-' :: ds := by
      rw [String.data_append, String.data_append]
      simp
    have hrev : (stem ++ "-" ++ String.mk ds).data.reverse =
        ds.reverse ++ '-' :: stem.data.reverse := by
      rw [hdata, List.reverse_append, List.reverse_cons, List.append_assoc]
      rfl
    have htw2 : List.takeWhile Char.isDigit (ds.reverse ++ '-' :: stem.data.reverse)
        = ds.reverse := by
      rw [takeWhile_all_append Char.isDigit ds.reverse ('-' :: stem.data.reverse)
        (fun c hc => hdig c (List.mem_reverse.mp hc))]
      rw [List.takeWhile_cons_of_neg (by decide)]
      rw [List.append_nil]
    have hner : ¬(ds.reverse = []) := by simpa using hne
    have hmk : String.mk stem.data = stem := by
      cases stem
      rfl
    have hsplit : splitTrailing (stem ++ "-" ++ String.mk ds)
        = some (stem, digitsToNat ds) := by
      unfold splitTrailing
      simp only [hrev]
      rw [htw2]
      rw [if_neg hner]
      rw [List.drop_left]
      rw [if_pos (show ('-' :: stem.data.reverse).head? = some '-' from rfl)]
      simp only [List.drop_succ_cons, List.drop_zero, List.reverse_reverse, hmk]
    refine ⟨hsplit, ?_⟩
    unfold nextPageOf
    rw [hsplit]
  · intro url h
    constructor
    · unfold currentPageOf
      rw [h]
    · unfold nextPageOf
      rw [h]

/-- Concrete instantiation of the amended C8 theorem: page index 17 steps
to 18, and the suffix-less base url of a tab steps to itself. -/
theorem C8_next_page_construction_witness :
    nextPageOf "https://theorg.com/companies/a-17"
      = "https://theorg.com/companies/a-18" ∧
    nextPageOf "https://theorg.com/companies/a"
      = "https://theorg.com/companies/a" := by
  constructor
  · have h := (C8_next_page_construction.1 "https://theorg.com/companies/a"
      ['1', '7'] (by decide) (by decide)).2
    have e1 : "https://theorg.com/companies/a" ++ "-" ++ String.mk ['1', '7']
        = "https://theorg.com/companies/a-17" := by decide
    have e2 : "https://theorg.com/companies/a" ++ "-"
        ++ toString (digitsToNat ['1', '7'] + 1)
        = "https://theorg.com/companies/a-18" := by decide
    rw [e1, e2] at h
    exact h
  · exact (C8_next_page_construction.2 "https://theorg.com/companies/a"
      (by decide)).2

/-- Claim C9: the drain loop ends exactly when the queue empties -
whenever the fuelled loop finishes, the final queue is empty; and from any
state whose queued entries all have fresh names (pairwise distinct and not
yet processed) and whose first extraction attempt succeeds, the loop does
finish, with the queue drained to empty. -/
theorem C9_drain_ends_iff_empty :
    (∀ (e : Company → Extractor) (f : Nat) (s s2 : CrawlState),
       drainFuel e f s = some s2 → s2.companyQueue = []) ∧
    (∀ (e : Company → Extractor) (s : CrawlState),
       (∀ c ∈ s.companyQueue, ((e c) 0).isOk = true) →
       (s.companyQueue.map Company.name).Nodup →
       (∀ c ∈ s.companyQueue, c.name ∉ s.progress.processedCompanies) →
       ∃ f s2, drainFuel e f s = some s2 ∧ s2.companyQueue = []) :=
  ⟨fun _e f s s2 h => drainFuel_some_empty f s s2 h,
   fun _e s h1 h2 h3 =>
     drain_terminates s.companyQueue.length s (Nat.le_refl _) h1 h2 h3⟩

/-- Concrete instantiation of C9 at the one-entry queue sW9 with an
always-succeeding extractor. -/
theorem C9_drain_ends_iff_empty_witness :
    (drainStep extractHp sW9).companyQueue = [] ∧
    (∃ f s2, drainFuel extractHp f sW9 = some s2 ∧ s2.companyQueue = []) :=
  ⟨C9_drain_ends_iff_empty.1 extractHp 1 sW9 (drainStep extractHp sW9)
     (by decide),
   C9_drain_ends_iff_empty.2 extractHp sW9 (fun c hc => rfl) (by decide)
     (by decide)⟩

/-- Claim C10: the crawl state at the moment the controller navigates to
BASE_URL always has an empty work queue: a nonempty persisted queue is
drained to empty first, and an empty one is passed through unchanged. -/
theorem C10_leftover_queue_drained_before_base_nav (e : Company → Extractor)
    (f : Nat) (s s2 : CrawlState) (h : stateAtBaseNav e f s = some s2) :
    s2.companyQueue = [] := by
  unfold stateAtBaseNav at h
  by_cases hq : s.companyQueue = []
  · rw [if_pos hq] at h
    cases h
    exact hq
  · rw [if_neg hq] at h
    exact drainFuel_some_empty f s s2 h

/-- Concrete instantiation of C10 at the one-entry queue sW10. -/
theorem C10_leftover_queue_drained_before_base_nav_witness :
    sW10.companyQueue ≠ [] ∧
    stateAtBaseNav extractHp 1 sW10 = some (drainStep extractHp sW10) ∧
    (drainStep extractHp sW10).companyQueue = [] :=
  ⟨by decide, by decide,
   C10_leftover_queue_drained_before_base_nav extractHp 1 sW10
     (drainStep extractHp sW10) (by decide)⟩

end OrgScrape
